import Mathlib

/-!
Verification of the few-shot example selection and dataset normalization
layer of a social-media post generator.

The development shallowly embeds the relevant Python functions:
  - `few_shot.py` (Corpus Store and Example Selector):
    `FewShotPosts.load_posts`, `categorize_length`, `ensure_list`,
    `get_filtered_posts`, `merge_datasets`;
  - `dataset_processor.py` (Annotation Normalizer and Raw Dataset
    Processor): `DatasetProcessor.normalize_metadata`,
    `get_default_metadata`, `extract_post_metadata`,
    `process_single_post`, and the per-item processing loop;
  - `dataset_manager.py` (Dataset Registry):
    `DatasetManager._is_processed_dataset`.

Machine strings and JSON enum values are embedded as Lean `String`s;
Python dictionaries with optional keys become structures with `Option`
fields; the untyped `tags` value coming back from the external
classifier becomes the sum type `TagsVal`.
-/

namespace PostGen

/-- Embeds the Python split of the text on the newline separator, at the
character level: split on every newline, keeping empty segments, so the
empty text yields one (empty) segment, exactly as in Python where the
split of the empty string is a list holding one empty string. -/
def splitLines : List Char → List (List Char)
  | [] => [[]]
  | c :: cs =>
    if c = '\n' then [] :: splitLines cs
    else
      match splitLines cs with
      | [] => [[c]]
      | l :: ls => (c :: l) :: ls

/-- Embeds the Python line count — the length of the split of the text on
the newline separator — used by both `few_shot.py` (load-time backfill)
and `dataset_processor.py` (`normalize_metadata`,
`get_default_metadata`). -/
def line_count_of (text : String) : Nat := (splitLines text.data).length

/-- The untyped `tags` value at the external boundary: a JSON string, a
JSON array of strings, or anything else (including an absent key, which
the Python call `metadata.get` with a `[]` default turns into `[]` and the `isinstance`
chain then treats like any other non-string non-list value). -/
inductive TagsVal where
  | str (s : String)
  | list (l : List String)
  | other
deriving DecidableEq

/-- One fully annotated post record as stored in a processed corpus
document and manipulated by `few_shot.py`. -/
structure Post where
  text : String
  engagement : Int
  line_count : Nat
  length : String
  language : String
  tags : List String
  tone : String
  target_audience : String
deriving DecidableEq

/-- Embeds `FewShotPosts.categorize_length` (few_shot.py):
`if line_count < 5: "Short" elif 5 <= line_count <= 10: "Medium" else:
"Long"`. -/
def categorize_length (line_count : Nat) : String :=
  if line_count < 5 then "Short"
  else if 5 ≤ line_count ∧ line_count ≤ 10 then "Medium"
  else "Long"

/-- Embeds `FewShotPosts.ensure_list` (few_shot.py): a string becomes a
one-element list, a list is kept, anything else becomes `[]`. -/
def ensure_list : TagsVal → List String
  | .str s => [s]
  | .list l => l
  | .other => []

/-- The row predicate of `FewShotPosts.get_filtered_posts` (few_shot.py):
`tag in tags` and `language` and `length` equality, case-sensitive. -/
def postMatches (length language tag : String) (p : Post) : Bool :=
  p.tags.contains tag && (p.language == language) && (p.length == length)

/-- Embeds `FewShotPosts.get_filtered_posts` (few_shot.py): `[]` for an
empty dataframe, otherwise the boolean-mask filter over the rows in
their stored order. -/
def get_filtered_posts (records : List Post) (length language tag : String) :
    List Post :=
  if records.isEmpty then []
  else records.filter (postMatches length language tag)

/-- Embeds the pandas drop-duplicates call on the text column with keep
set to first, as
used by `FewShotPosts.merge_datasets`: walk the rows in order, keeping a
row iff its `text` has not been seen before. -/
def dedupByTextAux (seen : List String) : List Post → List Post
  | [] => []
  | p :: ps =>
    if p.text ∈ seen then dedupByTextAux seen ps
    else p :: dedupByTextAux (p.text :: seen) ps

/-- The drop-duplicates-by-text walk started on a whole row list with
nothing seen yet. -/
def drop_duplicates_text (records : List Post) : List Post :=
  dedupByTextAux [] records

/-- Embeds `FewShotPosts.merge_datasets` (few_shot.py) on the record
sequences of the two corpora: when the other corpus is empty the method
returns `False` without touching `self.df` (so the result is `a`
unchanged); otherwise it concatenates `self.df` with the other frame and
drops duplicate `text` rows keeping the first. -/
def merge_datasets (a b : List Post) : List Post :=
  if b.isEmpty then a else drop_duplicates_text (a ++ b)

/-- The corpus documents `FewShotPosts.load_posts` can be pointed at:
a missing file, a file whose content is not valid JSON, a file whose
content is valid JSON but not an array of objects (a bare object without
a usable text column, a scalar, an array of scalars — every such shape
makes the pandas normalization or the column backfill raise inside the
`try`), or a JSON array of fully annotated post objects. -/
inductive FewShotDoc where
  | missing
  | malformed
  | nonArray
  | arr (posts : List Post)
deriving DecidableEq

/-- Embeds `FewShotPosts.load_posts` (few_shot.py). A missing file is
caught by the `except FileNotFoundError` and yields an empty dataset;
malformed JSON and non-array JSON raise inside the `try` (from
`json.load` or from the dataframe column accesses) and are caught by the
catch-all `except Exception`, which logs and resets `self.df` to an
empty frame; a fully annotated array is loaded as-is (all backfill
branches are skipped because every column is present). -/
def load_posts : FewShotDoc → List Post
  | .missing => []
  | .malformed => []
  | .nonArray => []
  | .arr posts => posts

/-- The error condition the spec calls FormatError. -/
inductive LoadError where
  | formatError
deriving DecidableEq

/-- Modelled from the spec: the contract the spec states for `load` — a missing
file yields an empty corpus, malformed or non-array content fails with
`FormatError`, a well-formed array loads. No such error type exists
anywhere in the source; this definition follows the words of the spec only to
be compared with `load_posts`, the embedding of the code. -/
def load_spec : FewShotDoc → Except LoadError (List Post)
  | .missing => .ok []
  | .malformed => .error .formatError
  | .nonArray => .error .formatError
  | .arr posts => .ok posts

/-- A document whose content is present but is not a valid JSON array of
objects. -/
def contentInvalid : FewShotDoc → Bool
  | .malformed => true
  | .nonArray => true
  | _ => false

/-- The untyped metadata object returned by the external classifier, as
consumed by `DatasetProcessor.normalize_metadata` (dataset_processor.py):
every key may be absent, every value untrusted. -/
structure RawMetadata where
  line_count : Option Nat
  length : Option String
  tags : TagsVal
  language : Option String
  tone : Option String
  target_audience : Option String
deriving DecidableEq

/-- The validated metadata bundle returned by
`DatasetProcessor.normalize_metadata` and `get_default_metadata`. -/
structure Metadata where
  line_count : Nat
  language : String
  tags : List String
  length : String
  tone : String
  target_audience : String
deriving DecidableEq

/-- The `valid_tones` list of `DatasetProcessor.normalize_metadata`. -/
def valid_tones : List String :=
  ["Professional", "Casual", "Humorous", "Inspirational", "Educational"]

/-- The `valid_audiences` list of `DatasetProcessor.normalize_metadata`. -/
def valid_audiences : List String :=
  ["Students", "Professionals", "Job Seekers", "Entrepreneurs", "General"]

/-- The language whitelist of `DatasetProcessor.normalize_metadata`. -/
def valid_languages : List String := ["English", "Hinglish"]

/-- The length bucketing written out identically in both
`DatasetProcessor.normalize_metadata` and `get_default_metadata`
(dataset_processor.py): `if line_count <= 5: "Short" elif
line_count <= 10: "Medium" else: "Long"`. -/
def bucketLength (line_count : Nat) : String :=
  if line_count ≤ 5 then "Short"
  else if line_count ≤ 10 then "Medium"
  else "Long"

/-- The inline tags coercion of `DatasetProcessor.normalize_metadata`:
first read the tags key with a `[]` default, then a string is wrapped, a list is
kept, anything else becomes `[]` (an absent key gives `[]` directly). -/
def coerce_tags : TagsVal → List String
  | .str s => [s]
  | .list l => l
  | .other => []

/-- Embeds `DatasetProcessor.normalize_metadata` (dataset_processor.py):
recompute `line_count` from the text, rebucket `length` from it, coerce
`tags` and truncate to 4, and validate `language` / `tone` /
`target_audience` against their whitelists with the fixed fallbacks. -/
def normalize_metadata (metadata : RawMetadata) (text : String) : Metadata :=
  let line_count := line_count_of text
  let length := bucketLength line_count
  let tags := coerce_tags metadata.tags
  let language0 := metadata.language.getD "English"
  let language := if language0 ∈ valid_languages then language0 else "English"
  let tone0 := metadata.tone.getD "Professional"
  let tone := if tone0 ∈ valid_tones then tone0 else "Professional"
  let audience0 := metadata.target_audience.getD "General"
  let target_audience :=
    if audience0 ∈ valid_audiences then audience0 else "General"
  { line_count := line_count
    language := language
    tags := tags.take 4
    length := length
    tone := tone
    target_audience := target_audience }

/-- Embeds `DatasetProcessor.get_default_metadata` (dataset_processor.py):
the fixed fallback bundle built only from the text-derived line count. -/
def get_default_metadata (text : String) : Metadata :=
  { line_count := line_count_of text
    language := "English"
    tags := ["General"]
    length := bucketLength (line_count_of text)
    tone := "Professional"
    target_audience := "General" }

/-- One raw input item handed to the Raw Dataset Processor: a JSON object
that may lack `text` (and `engagement`). -/
structure RawItem where
  text : Option String
  engagement : Option Int
deriving DecidableEq

/-- One output record of `DatasetProcessor.process_single_post`: the
original text and engagement together with the extracted metadata fields
(the Python code splices the metadata dict into the record). -/
structure ProcessedPost where
  text : String
  engagement : Int
  meta : Metadata
deriving DecidableEq

/-- Embeds `DatasetProcessor.extract_post_metadata`
(dataset_processor.py), with the external LLM call and JSON parse
abstracted as `classifier : String → Option RawMetadata` (`none` models
any failure of the call or of parsing its response). On success the
result is normalized; any failure is caught and the fixed default
bundle is returned. -/
def extract_post_metadata (classifier : String → Option RawMetadata)
    (text : String) : Metadata :=
  match classifier text with
  | some m => normalize_metadata m text
  | none => get_default_metadata text

/-- Embeds `DatasetProcessor.process_single_post` (dataset_processor.py):
an item with a missing or empty (falsy) `text` is skipped with `None`;
otherwise one record is built from the text, `engagement` defaulted to
0, and the extracted metadata. -/
def process_single_post (classifier : String → Option RawMetadata)
    (post : RawItem) : Option ProcessedPost :=
  match post.text with
  | none => none
  | some t =>
    if t = "" then none
    else
      some { text := t
             engagement := post.engagement.getD 0
             meta := extract_post_metadata classifier t }

/-- Embeds the per-item loop of
`DatasetProcessor.process_existing_raw_dataset` /
`process_uploaded_dataset`: each item is processed independently and the
record is appended when `process_single_post` returns one. -/
def process_raw_posts (classifier : String → Option RawMetadata)
    (raw : List RawItem) : List ProcessedPost :=
  raw.filterMap (process_single_post classifier)

/-- The skip condition of `process_single_post`: the item has a `text`
key whose value is a non-empty string. -/
def itemHasText (i : RawItem) : Bool :=
  match i.text with
  | some t => t ≠ ""
  | none => false

/-- The record `process_single_post` builds for an item that has text
(only ever applied to such items). -/
def buildRecord (classifier : String → Option RawMetadata)
    (i : RawItem) : ProcessedPost :=
  { text := i.text.getD ""
    engagement := i.engagement.getD 0
    meta := extract_post_metadata classifier (i.text.getD "") }

/-- One JSON object of a corpus document as inspected by
`DatasetManager._is_processed_dataset`: the `text` key may be absent and
the `tags` value is untyped. -/
structure DocRecord where
  text : Option String
  tags : TagsVal
deriving DecidableEq

/-- A readable corpus document as classified by the Dataset Registry:
content that fails to parse or to open, valid JSON that is not an array
of objects (the falsy/`isinstance` guard or the later field accesses
reject it), or a JSON array of objects. -/
inductive CorpusDoc where
  | unreadable
  | nonArray
  | arr (records : List DocRecord)
deriving DecidableEq

/-- Embeds `DatasetManager._is_processed_dataset` (dataset_manager.py):
any read/parse failure returns `False`; `not data or not
isinstance(data, list)` rejects non-arrays and the empty array; then the
first record must contain `text` and `tags`, and `tags` must be a
non-empty list. -/
def is_processed_dataset : CorpusDoc → Bool
  | .unreadable => false
  | .nonArray => false
  | .arr [] => false
  | .arr (p :: _) =>
    p.text.isSome &&
      (match p.tags with
       | .list l => !l.isEmpty
       | _ => false)

/-- Re-inject a validated bundle into the untyped shape the classifier
boundary uses, for stating idempotence of the Normalizer. -/
def Metadata.toRaw (m : Metadata) : RawMetadata :=
  { line_count := some m.line_count
    length := some m.length
    tags := .list m.tags
    language := some m.language
    tone := some m.tone
    target_audience := some m.target_audience }

/-- A metadata bundle already valid for a post text: line count matching
the text, length correctly bucketed, at most 4 tags, and the three
enumerated fields inside their whitelists. -/
def Metadata.validFor (m : Metadata) (text : String) : Prop :=
  m.line_count = line_count_of text ∧
  m.length = bucketLength m.line_count ∧
  m.tags.length ≤ 4 ∧
  m.language ∈ valid_languages ∧
  m.tone ∈ valid_tones ∧
  m.target_audience ∈ valid_audiences

/-- Concrete record used in witnesses and counterexamples. -/
def postX : Post :=
  { text := "x", engagement := 0, line_count := 1, length := "Short",
    language := "English", tags := ["General"], tone := "Professional",
    target_audience := "General" }

/-- Same text as `postX`, different engagement: a `text` conflict. -/
def postX2 : Post := { postX with engagement := 7 }

/-- Concrete record with text "y". -/
def postY : Post := { postX with text := "y" }

/-- Concrete record with text "z". -/
def postZ : Post := { postX with text := "z" }

/-- Concrete untyped classifier response used in witnesses. -/
def rawEx : RawMetadata :=
  { line_count := some 99, length := some "Long", tags := .list ["a"],
    language := some "English", tone := some "Casual",
    target_audience := some "Students" }

/-- Concrete classifier response with an out-of-range language, tone and
audience and a bare-string tag. -/
def rawBad : RawMetadata :=
  { line_count := none, length := none, tags := .str "AI",
    language := some "French", tone := some "Angry",
    target_audience := some "Aliens" }

/-- Concrete already-valid metadata bundle used in witnesses. -/
def mEx : Metadata :=
  { line_count := 1, language := "English", tags := ["General"],
    length := "Short", tone := "Professional", target_audience := "General" }

/-! Helper lemmas (shared; not tied to a single claim). -/

/-- Closed form of `process_single_post`: skip items without non-empty
text, build one record otherwise. -/
theorem process_single_post_eq (classifier : String → Option RawMetadata)
    (i : RawItem) :
    process_single_post classifier i
      = if itemHasText i then some (buildRecord classifier i) else none := by
  rcases hi : i.text with _ | t
  · simp [process_single_post, itemHasText, hi]
  · by_cases ht : t = "" <;>
      simp [process_single_post, itemHasText, hi, ht, buildRecord]

/-- Membership in the text-dedup walk: a row survives iff its text was
not already seen and it is the first row of the list carrying its
text. -/
theorem dedupByTextAux_mem (l : List Post) :
    ∀ (seen : List String) (p : Post),
      p ∈ dedupByTextAux seen l ↔
        p.text ∉ seen ∧ l.find? (fun q => q.text == p.text) = some p := by
  induction l with
  | nil => intro seen p; simp [dedupByTextAux]
  | cons x xs ih =>
    intro seen p
    rw [dedupByTextAux]
    by_cases hcmp : x.text = p.text
    · by_cases hx : x.text ∈ seen
      · rw [if_pos hx, ih]
        rw [List.find?_cons_of_pos _ (by simp [hcmp])]
        constructor
        · rintro ⟨hp, _⟩; exact absurd (hcmp ▸ hx) hp
        · rintro ⟨hp, _⟩; exact absurd (hcmp ▸ hx) hp
      · rw [if_neg hx, List.mem_cons, ih]
        rw [List.find?_cons_of_pos _ (by simp [hcmp])]
        constructor
        · rintro (rfl | ⟨hp, _⟩)
          · exact ⟨hcmp ▸ hx, rfl⟩
          · refine absurd ?_ hp
            rw [← hcmp]; exact List.mem_cons_self _ _
        · rintro ⟨hp, hf⟩
          obtain rfl := Option.some.inj hf
          exact Or.inl rfl
    · by_cases hx : x.text ∈ seen
      · rw [if_pos hx, ih, List.find?_cons_of_neg _ (by simp [hcmp])]
      · rw [if_neg hx, List.mem_cons, ih,
          List.find?_cons_of_neg _ (by simp [hcmp])]
        constructor
        · rintro (rfl | ⟨hp, hf⟩)
          · exact absurd rfl hcmp
          · exact ⟨fun hmem => hp (List.mem_cons_of_mem _ hmem), hf⟩
        · rintro ⟨hp, hf⟩
          refine Or.inr ⟨?_, hf⟩
          intro hmem
          rcases List.mem_cons.mp hmem with h | h
          · exact hcmp h.symm
          · exact hp h

/-- The text-dedup walk is a subsequence of its input (rows are only
dropped, never reordered). -/
theorem dedupByTextAux_sublist (l : List Post) :
    ∀ seen, (dedupByTextAux seen l).Sublist l := by
  induction l with
  | nil => intro seen; simp [dedupByTextAux]
  | cons x xs ih =>
    intro seen
    rw [dedupByTextAux]
    by_cases hx : x.text ∈ seen
    · rw [if_pos hx]; exact (ih seen).trans (List.sublist_cons_self x xs)
    · rw [if_neg hx]; exact (ih _).cons₂ x

/-- After the text-dedup walk no two surviving rows share a text. -/
theorem dedupByTextAux_pairwise (l : List Post) :
    ∀ seen, (dedupByTextAux seen l).Pairwise (fun p q => p.text ≠ q.text) := by
  induction l with
  | nil => intro seen; simp [dedupByTextAux]
  | cons x xs ih =>
    intro seen
    rw [dedupByTextAux]
    by_cases hx : x.text ∈ seen
    · rw [if_pos hx]; exact ih seen
    · rw [if_neg hx]
      refine List.Pairwise.cons ?_ (ih _)
      intro q hq hEq
      have hqs := ((dedupByTextAux_mem xs (x.text :: seen) q).mp hq).1
      exact hqs (by rw [← hEq]; exact List.mem_cons_self _ _)

/-! Claim theorems. -/

/-- C3: the Corpus Store load-time backfill bucketing
(`FewShotPosts.categorize_length`) maps `line_count < 5` to Short,
`5 ≤ line_count ≤ 10` to Medium and `line_count > 10` to Long, so the
boundary value 5 yields Medium there while the Annotation Normalizer
bucketing (`bucketLength`) yields Short for 5. -/
theorem categorize_length_buckets :
    (∀ lc : Nat,
      (lc < 5 → categorize_length lc = "Short") ∧
      (5 ≤ lc → lc ≤ 10 → categorize_length lc = "Medium") ∧
      (10 < lc → categorize_length lc = "Long")) ∧
    categorize_length 5 = "Medium" ∧ bucketLength 5 = "Short" := by
  refine ⟨fun lc => ⟨fun h => ?_, fun h1 h2 => ?_, fun h => ?_⟩,
    by decide, by decide⟩
  · rw [categorize_length, if_pos h]
  · rw [categorize_length, if_neg (by omega), if_pos ⟨h1, h2⟩]
  · rw [categorize_length, if_neg (by omega), if_neg (by omega)]

/-- Witness for C3 at the concrete inputs 3 and 5. -/
theorem categorize_length_buckets_witness :
    3 < 5 ∧ categorize_length 3 = "Short" ∧ categorize_length 5 = "Medium" :=
  ⟨by decide, (categorize_length_buckets.1 3).1 (by decide),
    categorize_length_buckets.2.1⟩

/-- C10: the Example Selector query (`FewShotPosts.get_filtered_posts`)
is a total function of the corpus state — it always returns the list
obtained by filtering the stored records (the source wraps the body in a
catch-all returning `[]`, and the embedding is total by construction) —
and on the empty corpus it returns `[]`. -/
theorem get_filtered_posts_total (records : List Post)
    (length language tag : String) :
    get_filtered_posts records length language tag
      = records.filter (postMatches length language tag) ∧
    get_filtered_posts [] length language tag = [] := by
  constructor
  · cases records with
    | nil => rfl
    | cons p ps => rfl
  · rfl

/-- C1 counterexample: a document whose content is present but malformed
makes `load_posts` return normally with an empty corpus, while the
spec contract for FormatError demands a failure there. -/
theorem load_posts_counterexample :
    contentInvalid FewShotDoc.malformed = true ∧
    load_posts FewShotDoc.malformed = ([] : List Post) ∧
    load_spec FewShotDoc.malformed = .error .formatError ∧
    load_spec FewShotDoc.malformed
      ≠ .ok (load_posts FewShotDoc.malformed) :=
  ⟨rfl, rfl, rfl, fun h => Except.noConfusion h⟩

/-- C1 amended: for every corpus document whose content is present but
not a valid JSON array of objects, `load_posts` silently recovers — the
failure is caught inside the function and an empty corpus is returned;
no error reaches the caller. -/
theorem load_posts_amended (d : FewShotDoc)
    (h : contentInvalid d = true) : load_posts d = [] := by
  cases d with
  | missing => exact Bool.noConfusion h
  | malformed => rfl
  | nonArray => rfl
  | arr posts => exact Bool.noConfusion h

/-- Witness for the amended C1 at the malformed document. -/
theorem load_posts_amended_witness :
    contentInvalid FewShotDoc.malformed = true ∧
    load_posts FewShotDoc.malformed = [] :=
  ⟨rfl, load_posts_amended FewShotDoc.malformed rfl⟩

/-- C2: `DatasetProcessor.normalize_metadata` recomputes `line_count`
from the post text (the externally supplied line count is never read,
so changing it changes nothing), and buckets `length` from the
recomputed count: at most 5 lines is Short, 6 to 10 is Medium, more
than 10 is Long. -/
theorem normalize_metadata_line_count_length (m : RawMetadata)
    (text : String) :
    (normalize_metadata m text).line_count = line_count_of text ∧
    (∀ lc, normalize_metadata { m with line_count := lc } text
      = normalize_metadata m text) ∧
    (line_count_of text ≤ 5 → (normalize_metadata m text).length = "Short") ∧
    (6 ≤ line_count_of text → line_count_of text ≤ 10 →
      (normalize_metadata m text).length = "Medium") ∧
    (10 < line_count_of text → (normalize_metadata m text).length = "Long") := by
  have hlen : (normalize_metadata m text).length
      = bucketLength (line_count_of text) := rfl
  refine ⟨rfl, fun lc => rfl, fun h => ?_, fun h1 h2 => ?_, fun h => ?_⟩
  · rw [hlen, bucketLength, if_pos h]
  · rw [hlen, bucketLength, if_neg (by omega), if_pos h2]
  · rw [hlen, bucketLength, if_neg (by omega), if_neg (by omega)]

/-- Witness for C2 at a three-line post text. -/
theorem normalize_metadata_line_count_length_witness :
    line_count_of "a\nb\nc" = 3 ∧ line_count_of "a\nb\nc" ≤ 5 ∧
    (normalize_metadata rawEx "a\nb\nc").line_count = 3 ∧
    (normalize_metadata rawEx "a\nb\nc").length = "Short" ∧
    normalize_metadata { rawEx with line_count := some 2 } "a\nb\nc"
      = normalize_metadata rawEx "a\nb\nc" := by
  have h := normalize_metadata_line_count_length rawEx "a\nb\nc"
  exact ⟨by decide, by decide, h.1.trans (by decide), h.2.2.1 (by decide),
    h.2.1 (some 2)⟩

/-- C4: `FewShotPosts.get_filtered_posts` returns exactly the records
whose `tags` literally contain the query tag and whose `language` and
`length` are (case-sensitively) equal to those of the query, and the result is
a subsequence of the stored records — insertion order, never
re-sorted. -/
theorem get_filtered_posts_matches (records : List Post)
    (length language tag : String) :
    (∀ p, p ∈ get_filtered_posts records length language tag ↔
      p ∈ records ∧ tag ∈ p.tags ∧ p.language = language ∧
        p.length = length) ∧
    (get_filtered_posts records length language tag).Sublist records := by
  have heq : get_filtered_posts records length language tag
      = records.filter (postMatches length language tag) := by
    cases records with
    | nil => rfl
    | cons p ps => rfl
  constructor
  · intro p
    rw [heq, List.mem_filter, postMatches]
    simp [and_assoc]
  · rw [heq]
    exact List.filter_sublist records

/-- C5 counterexample: when the other corpus is empty, `merge_datasets`
returns early without deduplicating, so a corpus that already holds two
records with the same text keeps both — the result differs from
concatenate-then-dedup and contains a duplicated text. -/
theorem merge_datasets_counterexample :
    merge_datasets [postX, postX] [] = [postX, postX] ∧
    drop_duplicates_text ([postX, postX] ++ []) = [postX] ∧
    merge_datasets [postX, postX] []
      ≠ drop_duplicates_text ([postX, postX] ++ []) := by
  refine ⟨rfl, by decide, by decide⟩

/-- C5 amended: whenever the other corpus is non-empty (the only case in
which `merge_datasets` actually merges), the result is the concatenation
of the two record sequences deduplicated by exact text equality keeping
the first occurrence; hence no two result records share a text, and a
record is in the result iff it is the first record of the concatenation
carrying its text (so on a text conflict the record of the first corpus is
the one kept). -/
theorem merge_datasets_amended (a b : List Post) (hb : b ≠ []) :
    merge_datasets a b = drop_duplicates_text (a ++ b) ∧
    (merge_datasets a b).Pairwise (fun p q => p.text ≠ q.text) ∧
    (∀ p, p ∈ merge_datasets a b ↔
      (a ++ b).find? (fun q => q.text == p.text) = some p) := by
  rcases b with _ | ⟨y, ys⟩
  · exact absurd rfl hb
  · refine ⟨rfl, ?_, ?_⟩
    · exact dedupByTextAux_pairwise (a ++ y :: ys) []
    · intro p
      show p ∈ dedupByTextAux [] (a ++ y :: ys) ↔ _
      rw [dedupByTextAux_mem]
      simp

/-- Witness for the amended C5 on the example given in the spec: A has texts
"x","y", B has texts "x" (a conflicting record) and "z"; the merge keeps
the record of A with text "x", then "y", then "z". -/
theorem merge_datasets_amended_witness :
    ([postX2, postZ] : List Post) ≠ [] ∧
    merge_datasets [postX, postY] [postX2, postZ] = [postX, postY, postZ] := by
  refine ⟨by decide, ?_⟩
  rw [(merge_datasets_amended [postX, postY] [postX2, postZ] (by decide)).1]
  decide

/-- C6: the per-item loop of the Raw Dataset Processor produces exactly one
record per input item with non-empty text, in input order (it is the map
of the record builder over the filtered input), and an item whose
classification fails still yields one record built from the fixed
fallback bundle — a per-item failure never aborts the batch. -/
theorem process_raw_posts_spec (classifier : String → Option RawMetadata)
    (raw : List RawItem) :
    process_raw_posts classifier raw
      = (raw.filter itemHasText).map (buildRecord classifier) ∧
    (∀ i t, i.text = some t → t ≠ "" → classifier t = none →
      process_single_post classifier i
        = some { text := t, engagement := i.engagement.getD 0,
                 meta := get_default_metadata t } ∧
      get_default_metadata t
        = { line_count := line_count_of t, language := "English",
            tags := ["General"], length := bucketLength (line_count_of t),
            tone := "Professional", target_audience := "General" }) := by
  constructor
  · induction raw with
    | nil => rfl
    | cons i rest ih =>
      rw [process_raw_posts] at ih ⊢
      rw [List.filterMap_cons, process_single_post_eq, List.filter_cons]
      by_cases h : itemHasText i <;> simp [h, ih]
  · intro i t hi ht hc
    refine ⟨?_, rfl⟩
    simp [process_single_post, hi, ht, extract_post_metadata, hc]

/-- Witness for C6: a failing classifier on a non-empty one-item input
still yields the fallback record. -/
theorem process_raw_posts_spec_witness :
    (RawItem.mk (some "hello") (some 10)).text = some "hello" ∧
    "hello" ≠ "" ∧
    (fun _ : String => (none : Option RawMetadata)) "hello" = none ∧
    process_single_post (fun _ => none) (RawItem.mk (some "hello") (some 10))
      = some { text := "hello", engagement := 10,
               meta := get_default_metadata "hello" } := by
  refine ⟨rfl, by decide, rfl, ?_⟩
  exact ((process_raw_posts_spec (fun _ => none) []).2
    (RawItem.mk (some "hello") (some 10)) "hello" rfl (by decide) rfl).1

/-- C7: the Annotation Normalizer is deterministic (the embedding is a
pure function, so identical inputs give identical outputs by
congruence) and idempotent: a bundle already valid for the post text is
returned unchanged. -/
theorem normalize_metadata_idempotent (m : Metadata) (text : String)
    (h : m.validFor text) :
    normalize_metadata (Metadata.toRaw m) text = m ∧
    (∀ (m' : RawMetadata) (t' : String),
      m' = Metadata.toRaw m → t' = text →
      normalize_metadata m' t' = normalize_metadata (Metadata.toRaw m) text) := by
  obtain ⟨h1, h2, h3, h4, h5, h6⟩ := h
  constructor
  · cases m with
    | mk lc lang tags len tone aud =>
      simp only [Metadata.toRaw] at *
      simp only [normalize_metadata, Option.getD_some, coerce_tags,
        Metadata.mk.injEq]
      refine ⟨h1.symm, ?_, ?_, ?_, ?_, ?_⟩
      · rw [if_pos h4]
      · exact List.take_of_length_le h3
      · rw [← h1, ← h2]
      · rw [if_pos h5]
      · rw [if_pos h6]
  · intro m' t' hm ht
    rw [hm, ht]

/-- Witness for C7 at a concrete valid bundle and text. -/
theorem normalize_metadata_idempotent_witness :
    mEx.validFor "hi" ∧ normalize_metadata (Metadata.toRaw mEx) "hi" = mEx := by
  have hv : mEx.validFor "hi" :=
    ⟨by decide, by decide, by decide, by decide, by decide, by decide⟩
  exact ⟨hv, (normalize_metadata_idempotent mEx "hi" hv).1⟩

/-- C8: `DatasetProcessor.normalize_metadata` coerces `tags` (string →
one-element list, list → kept, anything else → empty) truncated to the
first 4 entries, and replaces out-of-range `language`, `tone` and
`target_audience` values with English, Professional and General, so
every field of the output is inside its value set. -/
theorem normalize_metadata_coercion (m : RawMetadata) (text : String) :
    (normalize_metadata m text).tags = (coerce_tags m.tags).take 4 ∧
    (∀ s, m.tags = .str s → (normalize_metadata m text).tags = [s]) ∧
    (∀ l, m.tags = .list l → (normalize_metadata m text).tags = l.take 4) ∧
    (m.tags = .other → (normalize_metadata m text).tags = []) ∧
    (normalize_metadata m text).tags.length ≤ 4 ∧
    (normalize_metadata m text).language ∈ valid_languages ∧
    (∀ s, m.language = some s → s ∉ valid_languages →
      (normalize_metadata m text).language = "English") ∧
    (normalize_metadata m text).tone ∈ valid_tones ∧
    (∀ s, m.tone = some s → s ∉ valid_tones →
      (normalize_metadata m text).tone = "Professional") ∧
    (normalize_metadata m text).target_audience ∈ valid_audiences ∧
    (∀ s, m.target_audience = some s → s ∉ valid_audiences →
      (normalize_metadata m text).target_audience = "General") := by
  have hL : (normalize_metadata m text).language
      = if m.language.getD "English" ∈ valid_languages
        then m.language.getD "English" else "English" := rfl
  have hT : (normalize_metadata m text).tone
      = if m.tone.getD "Professional" ∈ valid_tones
        then m.tone.getD "Professional" else "Professional" := rfl
  have hA : (normalize_metadata m text).target_audience
      = if m.target_audience.getD "General" ∈ valid_audiences
        then m.target_audience.getD "General" else "General" := rfl
  refine ⟨rfl, ?_, ?_, ?_, ?_, ?_, ?_, ?_, ?_, ?_, ?_⟩
  · intro s hs
    show (coerce_tags m.tags).take 4 = [s]
    rw [hs]; rfl
  · intro l hl
    show (coerce_tags m.tags).take 4 = l.take 4
    rw [hl]; rfl
  · intro h
    show (coerce_tags m.tags).take 4 = []
    rw [h]; rfl
  · show ((coerce_tags m.tags).take 4).length ≤ 4
    rw [List.length_take]
    exact Nat.min_le_left 4 _
  · rw [hL]; split
    · assumption
    · decide
  · intro s hs hnot
    rw [hL, hs, Option.getD_some, if_neg hnot]
  · rw [hT]; split
    · assumption
    · decide
  · intro s hs hnot
    rw [hT, hs, Option.getD_some, if_neg hnot]
  · rw [hA]; split
    · assumption
    · decide
  · intro s hs hnot
    rw [hA, hs, Option.getD_some, if_neg hnot]

/-- Witness for C8 at a concrete out-of-range classifier response. -/
theorem normalize_metadata_coercion_witness :
    rawBad.tags = TagsVal.str "AI" ∧
    rawBad.language = some "French" ∧ "French" ∉ valid_languages ∧
    rawBad.tone = some "Angry" ∧ "Angry" ∉ valid_tones ∧
    (normalize_metadata rawBad "t").tags = ["AI"] ∧
    (normalize_metadata rawBad "t").language = "English" ∧
    (normalize_metadata rawBad "t").tone = "Professional" := by
  obtain ⟨_, h2, _, _, _, _, h7, _, h9, _, _⟩ :=
    normalize_metadata_coercion rawBad "t"
  exact ⟨rfl, rfl, by decide, rfl, by decide, h2 "AI" rfl,
    h7 "French" rfl (by decide), h9 "Angry" rfl (by decide)⟩

/-- C9: `DatasetManager._is_processed_dataset` classifies a readable
corpus document as processed iff its content is a non-empty JSON array
whose first record has a `text` field and a `tags` field that is a
non-empty list; every other shape (unreadable content, non-array
content, the empty array, a first record missing either field or with a
non-list or empty `tags`) is raw. -/
theorem is_processed_dataset_iff (d : CorpusDoc) :
    is_processed_dataset d = true ↔
      ∃ p rest, d = CorpusDoc.arr (p :: rest) ∧ p.text.isSome = true ∧
        ∃ l, p.tags = TagsVal.list l ∧ l ≠ [] := by
  cases d with
  | unreadable => simp [is_processed_dataset]
  | nonArray => simp [is_processed_dataset]
  | arr records =>
    cases records with
    | nil => simp [is_processed_dataset]
    | cons p rest =>
      simp only [is_processed_dataset, Bool.and_eq_true, CorpusDoc.arr.injEq,
        List.cons.injEq]
      constructor
      · rintro ⟨htext, htags⟩
        refine ⟨p, rest, ⟨rfl, rfl⟩, htext, ?_⟩
        cases hc : p.tags with
        | str s => rw [hc] at htags; exact Bool.noConfusion htags
        | list l =>
          refine ⟨l, rfl, ?_⟩
          rw [hc] at htags
          simpa [List.isEmpty_iff] using htags
        | other => rw [hc] at htags; exact Bool.noConfusion htags
      · rintro ⟨p', rest', ⟨rfl, rfl⟩, htext, l, htags, hl⟩
        refine ⟨htext, ?_⟩
        rw [htags]
        simpa [List.isEmpty_iff] using hl

end PostGen
